import Mathlib

/-!
Verification of the navigation transition engine (vue-router history core).

Shallow embedding of `src/unnamed/part_000` (the `History` controller:
`transitionTo`, `confirmTransition`, `updateRoute`, `resolveQueue`,
`bindEnterGuard`/`poll`, `onReady`) and `src/src/history/abstract.js`
(the `AbstractHistory` navigation stack).

JavaScript object identity is modelled by `Nat` ids; JavaScript values that
flow through guard continuations are modelled by the inductive `JSValue`;
asynchronous interleaving is modelled by an explicit observation schedule
`obs : Nat → Bool` giving, at each read of the controller's `pending` slot,
whether the slot still holds (by identity) the route of the transition
under consideration.

Helpers imported by the source from modules that are not part of the
repository snapshot (`runQueue` from util/async, `isSameRoute`/`START` from
util/route, `isError` from util/warn) are modelled from the specification,
as marked in their doc comments.
-/

/-- A JavaScript value as it can be passed to a guard continuation (`next`).
`obj` keeps only the fields the source inspects: `path`, `name`, `replace`. -/
inductive JSValue where
  | undef : JSValue
  | bool : Bool → JSValue
  | str : String → JSValue
  | errObj : String → JSValue
  | obj : Option String → Option String → Bool → JSValue
  | fn : JSValue
  deriving DecidableEq, Repr

/-- Modelled from the spec: `isError` (from util/warn, not under src/) —
"if `err` is a genuine error value".  Only an Error instance is a genuine
error value; `false`, strings, plain objects and functions are not. -/
def isError : JSValue → Bool
  | .errObj _ => true
  | _ => false

/-- JavaScript truthiness, used by `transitionTo`'s abort wrapper
(`if (err && !this.ready)`). -/
def jsTruthy : JSValue → Bool
  | .undef => false
  | .bool b => b
  | .str s => s ≠ ""
  | .errObj _ => true
  | .obj _ _ _ => true
  | .fn => true

/-- A resolved Route.  `id` models JavaScript object identity (the source
compares routes with `===`); `matched` is the list of matched RouteRecord
identities, least to most specific. -/
structure Route where
  id : Nat
  path : String
  query : List (String × String)
  hash : String
  fullPath : String
  matched : List Nat
  deriving DecidableEq, Repr

/-- Modelled from the spec: the `START` sentinel route (util/route, not under
src/) — "a sentinel nowhere Location exists as the initial current value". -/
def START : Route :=
  { id := 0, path := "/", query := [], hash := "", fullPath := "/", matched := [] }

/-- Modelled from the spec: `isSameRoute` (util/route, not under src/) —
"`route` is semantically the same location as current (same
path/query/hash)". -/
def isSameRoute (a b : Route) : Bool :=
  a.path == b.path && a.query == b.query && a.hash == b.hash

/-- The loop of `resolveQueue` (src/unnamed/part_000 lines 269-275):
`for (i = 0; i < max; i++) { if (current[i] !== next[i]) break }` —
returns the loop's final `i`.  Out-of-range access yields `none`
(JavaScript `undefined`); identity comparison is id equality. -/
def diffIndexFrom (current next : List Nat) (max i : Nat) : Nat :=
  if i < max then
    if current.get? i ≠ next.get? i then i
    else diffIndexFrom current next max (i + 1)
  else i
termination_by max - i

/-- The first index at which the two matched lists differ (the `i` produced
by `resolveQueue`'s scan). -/
def diffIdx (current next : List Nat) : Nat :=
  diffIndexFrom current next (Nat.max current.length next.length) 0

/-- `resolveQueue` (src/unnamed/part_000 lines 261-281): diff the current and
next matched-entry lists into reused / activated / deactivated slices. -/
def resolveQueue (current next : List Nat) :
    List Nat × List Nat × List Nat :=
  let i := diffIdx current next
  (next.take i, next.drop i, current.drop i)

theorem diffIndexFrom_spec (c n : List Nat) (max : Nat) :
    ∀ k i, max - i ≤ k → i ≤ max →
      i ≤ diffIndexFrom c n max i ∧
      diffIndexFrom c n max i ≤ max ∧
      (∀ j, i ≤ j → j < diffIndexFrom c n max i → c.get? j = n.get? j) ∧
      (diffIndexFrom c n max i < max →
        c.get? (diffIndexFrom c n max i) ≠ n.get? (diffIndexFrom c n max i)) := by
  intro k
  induction k with
  | zero =>
    intro i hk hle
    have him : ¬ i < max := by omega
    rw [diffIndexFrom, if_neg him]
    exact ⟨le_refl i, hle, fun j h1 h2 => absurd (lt_of_le_of_lt h1 h2) (lt_irrefl i),
      fun h => absurd h him⟩
  | succ k ih =>
    intro i hk hle
    rw [diffIndexFrom]
    by_cases him : i < max
    · rw [if_pos him]
      by_cases heq : c.get? i = n.get? i
      · rw [if_neg (not_not.mpr heq)]
        have hrec := ih (i + 1) (by omega) (by omega)
        refine ⟨by omega, hrec.2.1, ?_, hrec.2.2.2⟩
        intro j hij hjd
        rcases Nat.eq_or_lt_of_le hij with h | h
        · subst h
          exact heq
        · exact hrec.2.2.1 j h hjd
      · rw [if_pos heq]
        exact ⟨le_refl i, le_of_lt him,
          fun j h1 h2 => absurd (lt_of_le_of_lt h1 h2) (lt_irrefl i), fun _ => heq⟩
    · rw [if_neg him]
      exact ⟨le_refl i, hle, fun j h1 h2 => absurd (lt_of_le_of_lt h1 h2) (lt_irrefl i),
        fun h => absurd h him⟩

theorem take_eq_of_get?_agree (c n : List Nat) (i : Nat)
    (h : ∀ j, j < i → c.get? j = n.get? j) : n.take i = c.take i := by
  apply List.ext
  intro j
  by_cases hj : j < i
  · rw [List.get?_take hj, List.get?_take hj, h j hj]
  · have hj' : i ≤ j := le_of_not_lt hj
    rw [List.get?_eq_none.mpr, List.get?_eq_none.mpr]
    · exact le_trans (List.length_take_le i c) hj'
    · exact le_trans (List.length_take_le i n) hj'

/-- C2: `resolveQueue` returns `updated = next[0:i]`, `activated = next[i:]`,
`deactivated = current[i:]`, where `i` is the first index at which the two
lists differ by identity (or the common length when no index below
`max(len(current), len(next))` differs, in which case the lengths are equal);
`updated` is exactly the longest common identical-by-identity prefix. -/
theorem resolveQueue_first_diff (c n : List Nat) :
    resolveQueue c n = (n.take (diffIdx c n), n.drop (diffIdx c n), c.drop (diffIdx c n)) ∧
    (∀ j, j < diffIdx c n → c.get? j = n.get? j) ∧
    (diffIdx c n < Nat.max c.length n.length →
      c.get? (diffIdx c n) ≠ n.get? (diffIdx c n)) ∧
    (diffIdx c n = Nat.max c.length n.length → c.length = n.length) ∧
    diffIdx c n ≤ Nat.max c.length n.length ∧
    n.take (diffIdx c n) = c.take (diffIdx c n) := by
  have hs := diffIndexFrom_spec c n (Nat.max c.length n.length)
    (Nat.max c.length n.length) 0 (by omega) (by omega)
  have hagree : ∀ j, j < diffIdx c n → c.get? j = n.get? j := by
    intro j hj
    exact hs.2.2.1 j (Nat.zero_le j) hj
  refine ⟨rfl, hagree, hs.2.2.2, ?_, hs.2.1, take_eq_of_get?_agree c n _ hagree⟩
  intro hmax
  by_contra hne
  rcases Nat.lt_or_ge c.length n.length with hlt | hge
  · have hmx : Nat.max c.length n.length = n.length := Nat.max_eq_right (le_of_lt hlt)
    have hj : c.length < diffIdx c n := by
      rw [hmax, hmx]; omega
    have := hagree c.length hj
    rw [List.get?_eq_none.mpr (le_refl _)] at this
    have hsome : n.get? c.length ≠ none := by
      rw [ne_eq, List.get?_eq_none]
      omega
    exact hsome this.symm
  · have hlt : n.length < c.length := by omega
    have hmx : Nat.max c.length n.length = c.length := Nat.max_eq_left (le_of_lt hlt)
    have hj : n.length < diffIdx c n := by
      rw [hmax, hmx]; omega
    have := hagree n.length hj
    rw [List.get?_eq_none.mpr (le_refl _)] at this
    have hsome : c.get? n.length ≠ none := by
      rw [ne_eq, List.get?_eq_none]
      omega
    exact hsome this

/-- `shortCircuits route current`: the same-route short-circuit test of
`confirmTransition` (src/unnamed/part_000 lines 117-121):
`isSameRoute(route, current) && route.matched.length === current.matched.length`. -/
def shortCircuits (route current : Route) : Bool :=
  isSameRoute route current && route.matched.length == current.matched.length

/-- JavaScript `list.slice(0, k)` for an integer `k`: a negative end index
counts from the end of the list, clamped at 0. -/
def jsSliceTo (l : List Route) (k : Int) : List Route :=
  l.take (if k < 0 then ((l.length : Int) + k).toNat else k.toNat)

/-- `AbstractHistory` (src/src/history/abstract.js): an in-process stack of
routes with a cursor index, plus the inherited `current` route. -/
structure AbstractHistory where
  stack : List Route
  index : Int
  current : Route
  deriving DecidableEq, Repr

/-- The constructor state: empty stack, `index = -1`, `current = START`. -/
def AbstractHistory.init : AbstractHistory :=
  { stack := [], index := -1, current := START }

/-- `AbstractHistory.push` (abstract.js lines 18-25) on the success path of
its transition: commit (`updateRoute` sets `current`), then
`this.stack = this.stack.slice(0, this.index + 1).concat(route); this.index++`.
When `confirmTransition` short-circuits (same route, same matched length) the
completion callback never runs and the state is unchanged. -/
def AbstractHistory.push (h : AbstractHistory) (route : Route) : AbstractHistory :=
  if shortCircuits route h.current then h
  else
    { stack := jsSliceTo h.stack (h.index + 1) ++ [route],
      index := h.index + 1,
      current := route }

/-- `AbstractHistory.replace` (abstract.js lines 27-33) on the success path:
`this.stack = this.stack.slice(0, this.index).concat(route)`, cursor unchanged. -/
def AbstractHistory.replace (h : AbstractHistory) (route : Route) : AbstractHistory :=
  if shortCircuits route h.current then h
  else
    { stack := jsSliceTo h.stack h.index ++ [route],
      index := h.index,
      current := route }

/-- `AbstractHistory.go` (abstract.js lines 35-48) with its transition
succeeding: bounds-check `targetIndex`, then confirm a transition to the
stored route; on success set the cursor and commit via `updateRoute`.
The `none` branch of the lookup is unreachable (see the C10 theorem). -/
def AbstractHistory.go (h : AbstractHistory) (n : Int) : AbstractHistory :=
  let targetIndex := h.index + n
  if targetIndex < 0 || (h.stack.length : Int) ≤ targetIndex then h
  else
    match h.stack.get? targetIndex.toNat with
    | none => h
    | some route =>
      if shortCircuits route h.current then h
      else { h with index := targetIndex, current := route }

/-- `AbstractHistory.getCurrentLocation` (abstract.js lines 50-53):
`this.stack[this.stack.length - 1]` and its `fullPath`, or `'/'` when the
stack is empty. -/
def AbstractHistory.getCurrentLocation (h : AbstractHistory) : String :=
  match h.stack.get? (h.stack.length - 1) with
  | some r => r.fullPath
  | none => "/"

/-- One user-level operation on the navigation stack (its transition assumed
to succeed, as in the claims). -/
inductive StackOp where
  | push : Route → StackOp
  | replace : Route → StackOp
  | go : Int → StackOp
  deriving DecidableEq, Repr

def applyOp (h : AbstractHistory) : StackOp → AbstractHistory
  | .push r => h.push r
  | .replace r => h.replace r
  | .go n => h.go n

def applyOps (h : AbstractHistory) (ops : List StackOp) : AbstractHistory :=
  ops.foldl applyOp h

/-- The cursor invariant claimed for the navigation stack. -/
def stackInv (h : AbstractHistory) : Prop :=
  -1 ≤ h.index ∧ h.index ≤ (h.stack.length : Int) - 1

theorem stackInv_init : stackInv AbstractHistory.init := by
  constructor <;> simp [AbstractHistory.init]

theorem jsSliceTo_length_of_le (l : List Route) (k : Int) (h0 : 0 ≤ k)
    (hk : k ≤ (l.length : Int)) : ((jsSliceTo l k).length : Int) = k := by
  rw [jsSliceTo, if_neg (by omega)]
  rw [List.length_take]
  omega

theorem stackInv_applyOp (h : AbstractHistory) (op : StackOp) (hinv : stackInv h) :
    stackInv (applyOp h op) := by
  obtain ⟨h1, h2⟩ := hinv
  cases op with
  | push r =>
    rw [applyOp, AbstractHistory.push]
    by_cases hsc : shortCircuits r h.current = true
    · rw [if_pos hsc]; exact ⟨h1, h2⟩
    · rw [if_neg hsc]
      constructor
      · simp only []
        omega
      · simp only [List.length_append, List.length_cons, List.length_nil]
        have := jsSliceTo_length_of_le h.stack (h.index + 1) (by omega) (by omega)
        push_cast
        omega
  | replace r =>
    rw [applyOp, AbstractHistory.replace]
    by_cases hsc : shortCircuits r h.current = true
    · rw [if_pos hsc]; exact ⟨h1, h2⟩
    · rw [if_neg hsc]
      refine ⟨h1, ?_⟩
      simp only [List.length_append, List.length_cons, List.length_nil]
      by_cases hk : h.index < 0
      · have hnn : (0 : Int) ≤ ((jsSliceTo h.stack h.index).length : Int) :=
          Int.natCast_nonneg _
        push_cast
        omega
      · have := jsSliceTo_length_of_le h.stack h.index (by omega) (by omega)
        push_cast
        omega
  | go n =>
    rw [applyOp, AbstractHistory.go]
    by_cases hb : (h.index + n < 0 || (h.stack.length : Int) ≤ h.index + n) = true
    · rw [if_pos hb]; exact ⟨h1, h2⟩
    · rw [if_neg hb]
      simp only [Bool.or_eq_true, decide_eq_true_eq, not_or, not_lt, not_le] at hb
      cases hget : h.stack.get? (h.index + n).toNat with
      | none => exact ⟨h1, h2⟩
      | some route =>
        show stackInv (if shortCircuits route h.current = true then h
          else { stack := h.stack, index := h.index + n, current := route })
        by_cases hsc : shortCircuits route h.current = true
        · rw [if_pos hsc]; exact ⟨h1, h2⟩
        · rw [if_neg hsc]
          constructor <;> dsimp only <;> omega

theorem stackInv_applyOps (ops : List StackOp) (h : AbstractHistory)
    (hinv : stackInv h) : stackInv (applyOps h ops) := by
  induction ops generalizing h with
  | nil => exact hinv
  | cons op rest ih =>
    rw [applyOps, List.foldl_cons]
    exact ih (applyOp h op) (stackInv_applyOp h op hinv)

/-- C10: starting from the constructor state (empty stack, `index = -1`),
after every sequence of push / replace / go operations (their transitions
succeeding) the cursor satisfies `-1 ≤ index ≤ stack.length - 1`; `go`'s
bounds check therefore guarantees `stack[targetIndex]` exists; and every
committed `push` leaves `index = stack.length - 1` (a push whose
transition short-circuits leaves the state unchanged). -/
theorem abstractHistory_cursor_invariant (ops : List StackOp) (r : Route) (n : Int) :
    stackInv (applyOps AbstractHistory.init ops) ∧
    ((applyOps AbstractHistory.init ops).push r = applyOps AbstractHistory.init ops ∨
      ((applyOps AbstractHistory.init ops).push r).index =
        ((((applyOps AbstractHistory.init ops).push r).stack.length : Int) - 1)) ∧
    (((applyOps AbstractHistory.init ops).stack.get?
        ((applyOps AbstractHistory.init ops).index + n).toNat).isSome = true ∨
      (applyOps AbstractHistory.init ops).index + n < 0 ∨
      ((applyOps AbstractHistory.init ops).stack.length : Int) ≤
        (applyOps AbstractHistory.init ops).index + n) := by
  have hinv := stackInv_applyOps ops AbstractHistory.init stackInv_init
  obtain ⟨h1, h2⟩ := hinv
  refine ⟨⟨h1, h2⟩, ?_, ?_⟩
  · rw [AbstractHistory.push]
    by_cases hsc : shortCircuits r (applyOps AbstractHistory.init ops).current = true
    · left
      rw [if_pos hsc]
    · right
      rw [if_neg hsc]
      dsimp only
      simp only [List.length_append, List.length_cons, List.length_nil]
      have := jsSliceTo_length_of_le (applyOps AbstractHistory.init ops).stack
        ((applyOps AbstractHistory.init ops).index + 1) (by omega) (by omega)
      push_cast
      omega
  · by_cases hlo : (applyOps AbstractHistory.init ops).index + n < 0
    · right; left; exact hlo
    · by_cases hhi : ((applyOps AbstractHistory.init ops).stack.length : Int) ≤
          (applyOps AbstractHistory.init ops).index + n
      · right; right; exact hhi
      · left
        have hbound : ((applyOps AbstractHistory.init ops).index + n).toNat <
            (applyOps AbstractHistory.init ops).stack.length := by omega
        rw [List.get?_eq_get hbound]
        rfl

/-- The route for path `/a` used by the C6 scenario. -/
def routeA : Route :=
  { id := 1, path := "/a", query := [], hash := "", fullPath := "/a", matched := [10] }

/-- The route for path `/b` used by the C6 scenario. -/
def routeB : Route :=
  { id := 2, path := "/b", query := [], hash := "", fullPath := "/b", matched := [20] }

/-- Witness for C10 at a concrete operation sequence. -/
theorem abstractHistory_cursor_invariant_witness :
    stackInv (applyOps AbstractHistory.init [StackOp.push routeA, StackOp.go (-1)]) ∧
    ((applyOps AbstractHistory.init [StackOp.push routeA, StackOp.go (-1)]).push routeB =
        applyOps AbstractHistory.init [StackOp.push routeA, StackOp.go (-1)] ∨
      ((applyOps AbstractHistory.init [StackOp.push routeA, StackOp.go (-1)]).push routeB).index =
        ((((applyOps AbstractHistory.init
            [StackOp.push routeA, StackOp.go (-1)]).push routeB).stack.length : Int) - 1)) ∧
    (((applyOps AbstractHistory.init [StackOp.push routeA, StackOp.go (-1)]).stack.get?
        ((applyOps AbstractHistory.init [StackOp.push routeA, StackOp.go (-1)]).index + 0).toNat).isSome = true ∨
      (applyOps AbstractHistory.init [StackOp.push routeA, StackOp.go (-1)]).index + 0 < 0 ∨
      ((applyOps AbstractHistory.init [StackOp.push routeA, StackOp.go (-1)]).stack.length : Int) ≤
        (applyOps AbstractHistory.init [StackOp.push routeA, StackOp.go (-1)]).index + 0) :=
  abstractHistory_cursor_invariant [StackOp.push routeA, StackOp.go (-1)] routeB 0

/-- The stack state after `push('/a')`, `push('/b')`, `go(-1)` on an empty
stack (all transitions succeeding). -/
def c6State : AbstractHistory :=
  ((AbstractHistory.init.push routeA).push routeB).go (-1)

/-- C6 as stated is false: after `push('/a')`, `push('/b')`, `go(-1)`,
`getCurrentLocation()` reads the TOP of the stack (`stack[stack.length-1]`),
which is still `/b` — `go` never truncates the stack — not `/a`. -/
theorem c6_getCurrentLocation_counterexample :
    c6State.getCurrentLocation = "/b" ∧ c6State.getCurrentLocation ≠ "/a" := by
  constructor
  · rfl
  · decide

/-- C6 amended: after `push('/a')`, `push('/b')`, `go(-1)` (all transitions
succeeding), the committed current route is `/a` (so `current.fullPath`
is `/a`) while `getCurrentLocation()` returns `/b`, the full path of the
entry at the top of the stack; a subsequent `go(-5)` is a no-op, leaving
the cursor, the stack and the current route unchanged. -/
theorem c6_go_scenario :
    c6State.current = routeA ∧
    c6State.current.fullPath = "/a" ∧
    c6State.getCurrentLocation = "/b" ∧
    c6State.index = 0 ∧
    c6State.go (-5) = c6State := by
  refine ⟨rfl, rfl, rfl, rfl, ?_⟩
  decide

/-- One observable effect of a `confirmTransition` run. -/
inductive Ev where
  | ensureURL : Bool → Ev
  | guardCall : Ev
  | errorCb : JSValue → Ev
  | warnUncaught : Ev
  | onAbort : JSValue → Ev
  | pushNav : JSValue → Ev
  | replaceNav : JSValue → Ev
  | clearPending : Ev
  | onComplete : Ev
  deriving DecidableEq, Repr

/-- The running state of one `confirmTransition` call: how many times it has
read the `pending` slot so far, and the effects emitted so far. -/
structure RunSt where
  reads : Nat
  trace : List Ev
  deriving DecidableEq, Repr

/-- What a checkpoint does when the runner invokes it: call its continuation
with a value, or throw synchronously. -/
inductive GuardBehavior where
  | call : JSValue → GuardBehavior
  | throws : JSValue → GuardBehavior
  deriving DecidableEq, Repr

/-- The redirect test of `resultHandler` (src/unnamed/part_000 lines 176-181):
`typeof to === 'string' || (typeof to === 'object' && (typeof to.path ===
'string' || typeof to.name === 'string'))`. -/
def isRedirectTarget : JSValue → Bool
  | .str _ => true
  | .obj p n _ => p.isSome || n.isSome
  | _ => false

/-- The replace test of the redirect branch (src/unnamed/part_000 line 185):
`typeof to === 'object' && to.replace`. -/
def redirectReplaces : JSValue → Bool
  | .obj _ _ r => r
  | _ => false

/-- The `abort` closure of `confirmTransition` (src/unnamed/part_000 lines
103-115): if `err` is a genuine error, invoke every registered global error
callback (or warn when none is registered); then invoke the caller's
`onAbort` with `err`.  `ecbs` is the number of registered error callbacks. -/
def abortRun (ecbs : Nat) (err : JSValue) (st : RunSt) : RunSt :=
  if isError err then
    if ecbs ≠ 0 then
      { st with trace := st.trace ++ List.replicate ecbs (Ev.errorCb err) ++ [Ev.onAbort err] }
    else
      { st with trace := st.trace ++ [Ev.warnUncaught, Ev.onAbort err] }
  else
    { st with trace := st.trace ++ [Ev.onAbort err] }

/-- One queue run.  The queue walk is `runQueue` — modelled from the spec
(util/async is not under src/): "runs `iterator(steps[0], next)` ...
reaching the end of the list invokes `done()`; an absent (null/undefined)
step is treated as a no-op that advances immediately".  The behaviour per
step is the `iterator` of `confirmTransition` (src/unnamed/part_000 lines
166-198): re-read the pending slot (`obs st.reads`; abort silently when it
no longer holds this route), invoke the hook, and classify the value passed
to its continuation: `false`/error → `ensureURL(true)` and `abort(to)`;
redirect target → `abort()` then one `replace`/`push`; anything else →
advance.  A synchronous throw is caught and funnelled to `abort`.
Returns the state plus whether `done()` was reached. -/
def runGuardQueue (ecbs : Nat) (obs : Nat → Bool) :
    List (Option GuardBehavior) → RunSt → RunSt × Bool
  | [], st => (st, true)
  | none :: rest, st => runGuardQueue ecbs obs rest st
  | some g :: rest, st =>
    let st1 : RunSt := { st with reads := st.reads + 1 }
    if obs st.reads then
      let st2 : RunSt := { st1 with trace := st1.trace ++ [Ev.guardCall] }
      match g with
      | .throws e => (abortRun ecbs e st2, false)
      | .call v =>
        if v == .bool false || isError v then
          (abortRun ecbs v { st2 with trace := st2.trace ++ [Ev.ensureURL true] }, false)
        else if isRedirectTarget v then
          let st3 := abortRun ecbs .undef st2
          if redirectReplaces v then
            ({ st3 with trace := st3.trace ++ [Ev.replaceNav v] }, false)
          else
            ({ st3 with trace := st3.trace ++ [Ev.pushNav v] }, false)
        else
          runGuardQueue ecbs obs rest st2
    else
      (abortRun ecbs .undef st1, false)

/-- The completion callback of the second `runQueue` (src/unnamed/part_000
lines 211-226): re-check the pending slot one final time; when it still
holds this route, clear it and invoke `onComplete(route)`; otherwise abort
silently. -/
def finalStep (ecbs : Nat) (obs : Nat → Bool) (st : RunSt) : RunSt :=
  let st1 : RunSt := { st with reads := st.reads + 1 }
  if obs st.reads then
    { st1 with trace := st1.trace ++ [Ev.clearPending, Ev.onComplete] }
  else
    abortRun ecbs .undef st1

/-- `confirmTransition` (src/unnamed/part_000 lines 100-228) as a run over an
observation schedule.  `queueA` abstracts the first guard queue (leave
guards, global before hooks, update guards, entry-enter guards, the async
resolution step) and `queueB` the second (fragment-enter guards, global
resolve hooks); their construction is external to the claims.  The
same-route short-circuit calls `ensureURL()` and `abort()` before any
queue is built or any checkpoint runs. -/
def confirmTransition (current route : Route)
    (queueA queueB : List (Option GuardBehavior)) (ecbs : Nat)
    (obs : Nat → Bool) : RunSt :=
  if shortCircuits route current then
    abortRun ecbs .undef { reads := 0, trace := [Ev.ensureURL false] }
  else
    match runGuardQueue ecbs obs queueA { reads := 0, trace := [] } with
    | (st1, false) => st1
    | (st1, true) =>
      match runGuardQueue ecbs obs queueB st1 with
      | (st2, false) => st2
      | (st2, true) => finalStep ecbs obs st2

/-- `transitionTo`'s view of the committed route: `updateRoute` runs exactly
when `confirmTransition` invoked its completion callback. -/
def currentAfterRun (current route : Route) (tr : List Ev) : Route :=
  if Ev.onComplete ∈ tr then route else current

def countOnAbort (tr : List Ev) : Nat :=
  tr.countP fun e => match e with | Ev.onAbort _ => true | _ => false

def countOnComplete (tr : List Ev) : Nat :=
  tr.countP fun e => match e with | Ev.onComplete => true | _ => false

def countErrorCb (tr : List Ev) : Nat :=
  tr.countP fun e => match e with | Ev.errorCb _ => true | _ => false

def countGuardCalls (tr : List Ev) : Nat :=
  tr.countP fun e => match e with | Ev.guardCall => true | _ => false

def countNav (tr : List Ev) : Nat :=
  tr.countP fun e => match e with | Ev.pushNav _ => true | Ev.replaceNav _ => true | _ => false

/-- The arguments of the `onAbort` invocations, in order. -/
def abortArgs (tr : List Ev) : List JSValue :=
  tr.filterMap fun e => match e with | Ev.onAbort a => some a | _ => none

/-- C5: when the target route is semantically the same location as current
and has the same matched-entry count, `confirmTransition` resyncs the
address backend (`ensureURL()`) and aborts with no error value: no
checkpoint runs, the result does not depend on the guard queues at all,
no error callback runs, and no commit occurs (`current` stays as it was). -/
theorem confirm_same_route_no_op (cur rt : Route)
    (qa qb qa2 qb2 : List (Option GuardBehavior)) (ecbs : Nat)
    (obs obs2 : Nat → Bool)
    (h1 : isSameRoute rt cur = true) (h2 : rt.matched.length = cur.matched.length) :
    confirmTransition cur rt qa qb ecbs obs =
      { reads := 0, trace := [Ev.ensureURL false, Ev.onAbort JSValue.undef] } ∧
    confirmTransition cur rt qa qb ecbs obs =
      confirmTransition cur rt qa2 qb2 ecbs obs2 ∧
    countGuardCalls (confirmTransition cur rt qa qb ecbs obs).trace = 0 ∧
    countErrorCb (confirmTransition cur rt qa qb ecbs obs).trace = 0 ∧
    countOnComplete (confirmTransition cur rt qa qb ecbs obs).trace = 0 ∧
    currentAfterRun cur rt (confirmTransition cur rt qa qb ecbs obs).trace = cur := by
  have hsc : shortCircuits rt cur = true := by
    rw [shortCircuits, h1, h2]
    simp
  have hval : ∀ (qx qy : List (Option GuardBehavior)) (obsx : Nat → Bool),
      confirmTransition cur rt qx qy ecbs obsx =
        { reads := 0, trace := [Ev.ensureURL false, Ev.onAbort JSValue.undef] } := by
    intro qx qy obsx
    rw [confirmTransition, if_pos hsc, abortRun]
    rfl
  rw [hval qa qb obs, hval qa2 qb2 obs2]
  refine ⟨rfl, rfl, rfl, rfl, rfl, ?_⟩
  rw [currentAfterRun]
  simp

/-- A second route object for `/a`: distinct identity, same location. -/
def routeA2 : Route :=
  { id := 3, path := "/a", query := [], hash := "", fullPath := "/a", matched := [11] }

/-- Witness for C5: navigating to `/a` (fresh route object, one matched
entry) while `/a` (one matched entry) is current short-circuits. -/
theorem confirm_same_route_no_op_witness :
    confirmTransition routeA routeA2 [some (GuardBehavior.call JSValue.undef)] []
        1 (fun _ => true) =
      { reads := 0, trace := [Ev.ensureURL false, Ev.onAbort JSValue.undef] } ∧
    confirmTransition routeA routeA2 [some (GuardBehavior.call JSValue.undef)] []
        1 (fun _ => true) =
      confirmTransition routeA routeA2 [] [some (GuardBehavior.throws (JSValue.errObj "e"))]
        1 (fun _ => false) ∧
    countGuardCalls (confirmTransition routeA routeA2
      [some (GuardBehavior.call JSValue.undef)] [] 1 (fun _ => true)).trace = 0 ∧
    countErrorCb (confirmTransition routeA routeA2
      [some (GuardBehavior.call JSValue.undef)] [] 1 (fun _ => true)).trace = 0 ∧
    countOnComplete (confirmTransition routeA routeA2
      [some (GuardBehavior.call JSValue.undef)] [] 1 (fun _ => true)).trace = 0 ∧
    currentAfterRun routeA routeA2 (confirmTransition routeA routeA2
      [some (GuardBehavior.call JSValue.undef)] [] 1 (fun _ => true)).trace = routeA :=
  confirm_same_route_no_op routeA routeA2
    [some (GuardBehavior.call JSValue.undef)] []
    [] [some (GuardBehavior.throws (JSValue.errObj "e"))]
    1 (fun _ => true) (fun _ => false) (by decide) (by decide)

/-- Events a run may emit while merely walking the queue: checkpoint
invocations only. -/
def quietEv : Ev → Bool
  | Ev.guardCall => true
  | _ => false

/-- A step that advances the queue: absent, or a checkpoint whose
continuation value is neither `false`, an error, nor a redirect target. -/
def proceeds : Option GuardBehavior → Bool
  | none => true
  | some (GuardBehavior.throws _) => false
  | some (GuardBehavior.call v) =>
      !(v == JSValue.bool false || isError v) && !(isRedirectTarget v)

/-- Number of present (non-null) steps in a queue. -/
def countSome (q : List (Option GuardBehavior)) : Nat :=
  q.countP Option.isSome

theorem abortRun_reads (ecbs : Nat) (err : JSValue) (st : RunSt) :
    (abortRun ecbs err st).reads = st.reads := by
  rw [abortRun]
  by_cases h : isError err = true
  · rw [if_pos h]
    by_cases h2 : ecbs ≠ 0
    · rw [if_pos h2]
    · rw [if_neg h2]
  · rw [if_neg h]

theorem countP_replicate_zero {A : Type} (p : A → Bool) (n : Nat) (a : A)
    (h : p a = false) : (List.replicate n a).countP p = 0 := by
  induction n with
  | zero => rfl
  | succ n ih =>
    rw [List.replicate_succ, List.countP_cons, h]
    simpa using ih

theorem filterMap_replicate_none {A B : Type} (f : A → Option B) (n : Nat) (a : A)
    (h : f a = none) : (List.replicate n a).filterMap f = [] := by
  induction n with
  | zero => rfl
  | succ n ih =>
    rw [List.replicate_succ, List.filterMap_cons, h]
    exact ih

theorem abortRun_trace (ecbs : Nat) (err : JSValue) (st : RunSt) :
    ∃ pre, (abortRun ecbs err st).trace = st.trace ++ pre ++ [Ev.onAbort err] ∧
      countOnAbort pre = 0 ∧ countOnComplete pre = 0 ∧ countGuardCalls pre = 0 ∧
      countNav pre = 0 ∧ abortArgs pre = [] ∧
      (isError err = false → countErrorCb pre = 0) := by
  rw [abortRun]
  by_cases h : isError err = true
  · rw [if_pos h]
    by_cases h2 : ecbs ≠ 0
    · rw [if_pos h2]
      refine ⟨List.replicate ecbs (Ev.errorCb err), by simp, ?_, ?_, ?_, ?_, ?_, ?_⟩
      · exact countP_replicate_zero _ ecbs _ rfl
      · exact countP_replicate_zero _ ecbs _ rfl
      · exact countP_replicate_zero _ ecbs _ rfl
      · exact countP_replicate_zero _ ecbs _ rfl
      · exact filterMap_replicate_none _ ecbs _ rfl
      · intro hcon
        rw [hcon] at h
        exact Bool.noConfusion h
    · rw [if_neg h2]
      refine ⟨[Ev.warnUncaught], by simp, rfl, rfl, rfl, rfl, rfl, ?_⟩
      intro hcon
      rw [hcon] at h
      exact Bool.noConfusion h
  · rw [if_neg h]
    exact ⟨[], by simp, rfl, rfl, rfl, rfl, rfl, fun _ => rfl⟩

theorem runGuardQueue_reads_mono (ecbs : Nat) (obs : Nat → Bool)
    (q : List (Option GuardBehavior)) (st : RunSt) :
    st.reads ≤ ((runGuardQueue ecbs obs q st).1).reads := by
  induction q generalizing st with
  | nil => exact le_refl _
  | cons g rest ih =>
    cases g with
    | none =>
      rw [runGuardQueue]
      exact ih st
    | some gb =>
      rw [runGuardQueue]
      by_cases ho : obs st.reads = true
      · rw [if_pos ho]
        cases gb with
        | throws e =>
          dsimp only
          rw [abortRun_reads]
          dsimp only
          omega
        | call v =>
          dsimp only
          by_cases h1 : (v == JSValue.bool false || isError v) = true
          · rw [if_pos h1]
            dsimp only
            rw [abortRun_reads]
            dsimp only
            omega
          · rw [if_neg h1]
            by_cases h2 : isRedirectTarget v = true
            · rw [if_pos h2]
              by_cases h3 : redirectReplaces v = true
              · rw [if_pos h3]
                dsimp only
                rw [abortRun_reads]
                dsimp only
                omega
              · rw [if_neg h3]
                dsimp only
                rw [abortRun_reads]
                dsimp only
                omega
            · rw [if_neg h2]
              have := ih { st with reads := st.reads + 1, trace := st.trace ++ [Ev.guardCall] }
              dsimp only at this ⊢
              omega
      · rw [if_neg ho]
        dsimp only
        rw [abortRun_reads]
        dsimp only
        omega

theorem runGuardQueue_cons_some_reads (ecbs : Nat) (obs : Nat → Bool)
    (gb : GuardBehavior) (rest : List (Option GuardBehavior)) (st : RunSt) :
    st.reads + 1 ≤ ((runGuardQueue ecbs obs (some gb :: rest) st).1).reads := by
  rw [runGuardQueue]
  by_cases ho : obs st.reads = true
  · rw [if_pos ho]
    cases gb with
    | throws e =>
      dsimp only
      rw [abortRun_reads]
    | call v =>
      dsimp only
      by_cases h1 : (v == JSValue.bool false || isError v) = true
      · rw [if_pos h1]
        dsimp only
        rw [abortRun_reads]
      · rw [if_neg h1]
        by_cases h2 : isRedirectTarget v = true
        · rw [if_pos h2]
          by_cases h3 : redirectReplaces v = true
          · rw [if_pos h3]
            dsimp only
            rw [abortRun_reads]
          · rw [if_neg h3]
            dsimp only
            rw [abortRun_reads]
        · rw [if_neg h2]
          have := runGuardQueue_reads_mono ecbs obs rest
            { st with reads := st.reads + 1, trace := st.trace ++ [Ev.guardCall] }
          dsimp only at this
          exact this
  · rw [if_neg ho]
    dsimp only
    rw [abortRun_reads]

theorem runGuardQueue_append (ecbs : Nat) (obs : Nat → Bool)
    (q1 q2 : List (Option GuardBehavior)) (st : RunSt) :
    runGuardQueue ecbs obs (q1 ++ q2) st =
      (match runGuardQueue ecbs obs q1 st with
       | (st1, true) => runGuardQueue ecbs obs q2 st1
       | (st1, false) => (st1, false)) := by
  induction q1 generalizing st with
  | nil => rfl
  | cons g rest ih =>
    cases g with
    | none =>
      rw [List.cons_append, runGuardQueue, ih st]
      rfl
    | some gb =>
      rw [List.cons_append, runGuardQueue]
      conv_rhs => rw [runGuardQueue]
      by_cases ho : obs st.reads = true
      · rw [if_pos ho, if_pos ho]
        cases gb with
        | throws e => rfl
        | call v =>
          dsimp only
          by_cases h1 : (v == JSValue.bool false || isError v) = true
          · rw [if_pos h1, if_pos h1]
          · rw [if_neg h1, if_neg h1]
            by_cases h2 : isRedirectTarget v = true
            · rw [if_pos h2, if_pos h2]
              by_cases h3 : redirectReplaces v = true
              · rw [if_pos h3]
              · rw [if_neg h3]
            · rw [if_neg h2, if_neg h2]
              rw [ih]
      · rw [if_neg ho, if_neg ho]

theorem runGuardQueue_trace_of_done (ecbs : Nat) (obs : Nat → Bool)
    (q : List (Option GuardBehavior)) :
    ∀ st : RunSt, (runGuardQueue ecbs obs q st).2 = true →
      ∃ tr, ((runGuardQueue ecbs obs q st).1).trace = st.trace ++ tr ∧
        tr.all quietEv = true := by
  induction q with
  | nil =>
    intro st _
    exact ⟨[], by simp [runGuardQueue], rfl⟩
  | cons g rest ih =>
    intro st hdone
    cases g with
    | none =>
      rw [runGuardQueue] at hdone ⊢
      exact ih st hdone
    | some gb =>
      rw [runGuardQueue] at hdone ⊢
      by_cases ho : obs st.reads = true
      · rw [if_pos ho] at hdone ⊢
        cases gb with
        | throws e =>
          dsimp only at hdone
          exact Bool.noConfusion hdone
        | call v =>
          dsimp only at hdone ⊢
          by_cases h1 : (v == JSValue.bool false || isError v) = true
          · rw [if_pos h1] at hdone
            exact Bool.noConfusion hdone
          · rw [if_neg h1] at hdone ⊢
            by_cases h2 : isRedirectTarget v = true
            · rw [if_pos h2] at hdone
              by_cases h3 : redirectReplaces v = true
              · rw [if_pos h3] at hdone
                exact Bool.noConfusion hdone
              · rw [if_neg h3] at hdone
                exact Bool.noConfusion hdone
            · rw [if_neg h2] at hdone ⊢
              obtain ⟨tr, htr, hq⟩ := ih
                { st with reads := st.reads + 1, trace := st.trace ++ [Ev.guardCall] } hdone
              dsimp only at htr
              refine ⟨Ev.guardCall :: tr, ?_, ?_⟩
              · rw [htr]
                simp
              · rw [List.all_cons, hq]
                rfl
      · rw [if_neg ho] at hdone
        dsimp only at hdone
        exact Bool.noConfusion hdone

theorem runGuardQueue_agree (ecbs : Nat) (obs1 obs2 : Nat → Bool)
    (q : List (Option GuardBehavior)) :
    ∀ st : RunSt,
      (∀ k, st.reads ≤ k → k < ((runGuardQueue ecbs obs1 q st).1).reads → obs2 k = obs1 k) →
      runGuardQueue ecbs obs2 q st = runGuardQueue ecbs obs1 q st := by
  induction q with
  | nil =>
    intro st _
    rfl
  | cons g rest ih =>
    intro st hk
    cases g with
    | none =>
      rw [runGuardQueue] at hk
      rw [runGuardQueue, runGuardQueue]
      exact ih st hk
    | some gb =>
      have hlt : st.reads < ((runGuardQueue ecbs obs1 (some gb :: rest) st).1).reads :=
        lt_of_lt_of_le (Nat.lt_succ_self st.reads)
          (runGuardQueue_cons_some_reads ecbs obs1 gb rest st)
      have hco : obs2 st.reads = obs1 st.reads := hk st.reads (le_refl _) hlt
      rw [runGuardQueue]
      conv_rhs => rw [runGuardQueue]
      by_cases ho : obs1 st.reads = true
      · have ho2 : obs2 st.reads = true := hco.trans ho
        rw [if_pos ho2, if_pos ho]
        cases gb with
        | throws e => rfl
        | call v =>
          dsimp only
          by_cases h1 : (v == JSValue.bool false || isError v) = true
          · rw [if_pos h1, if_pos h1]
          · rw [if_neg h1, if_neg h1]
            by_cases h2 : isRedirectTarget v = true
            · rw [if_pos h2, if_pos h2]
            · rw [if_neg h2, if_neg h2]
              rw [runGuardQueue, if_pos ho] at hk
              dsimp only at hk
              rw [if_neg h1, if_neg h2] at hk
              apply ih
              intro k hk1 hk2
              refine hk k ?_ hk2
              dsimp only at hk1
              omega
      · have ho2 : obs2 st.reads = false := by
          rw [hco]
          exact Bool.of_not_eq_true ho
        rw [if_neg ho, if_neg (by rw [ho2]; exact Bool.false_ne_true)]

theorem runGuardQueue_superseded (ecbs s : Nat) (obs1 obs2 : Nat → Bool)
    (hobs1 : ∀ k, obs1 k = true) (hobs2 : ∀ k, obs2 k = true ↔ k < s)
    (q : List (Option GuardBehavior)) :
    ∀ st : RunSt, st.reads ≤ s →
      s < ((runGuardQueue ecbs obs1 q st).1).reads →
      ∃ tr, runGuardQueue ecbs obs2 q st =
          ({ reads := s + 1, trace := st.trace ++ tr ++ [Ev.onAbort JSValue.undef] }, false) ∧
        tr.all quietEv = true := by
  induction q with
  | nil =>
    intro st hle hgt
    rw [runGuardQueue] at hgt
    dsimp only at hgt
    omega
  | cons g rest ih =>
    intro st hle hgt
    cases g with
    | none =>
      rw [runGuardQueue] at hgt
      rw [runGuardQueue]
      exact ih st hle hgt
    | some gb =>
      rcases Nat.eq_or_lt_of_le hle with heq | hltS
      · -- the pending slot is read right now and no longer holds this route
        have ho2 : ¬ obs2 st.reads = true := by
          rw [hobs2 st.reads, heq]
          omega
        rw [runGuardQueue, if_neg ho2]
        refine ⟨[], ?_, rfl⟩
        rw [abortRun, if_neg (show ¬ isError JSValue.undef = true by decide)]
        dsimp only
        rw [heq]
        simp
      · -- still ours at this read: mirror the live run
        have ho2 : obs2 st.reads = true := by
          rw [hobs2 st.reads]
          exact hltS
        rw [runGuardQueue, if_pos (hobs1 st.reads)] at hgt
        rw [runGuardQueue, if_pos ho2]
        cases gb with
        | throws e =>
          dsimp only at hgt
          rw [abortRun_reads] at hgt
          dsimp only at hgt
          omega
        | call v =>
          dsimp only at hgt ⊢
          by_cases h1 : (v == JSValue.bool false || isError v) = true
          · rw [if_pos h1] at hgt
            dsimp only at hgt
            rw [abortRun_reads] at hgt
            dsimp only at hgt
            omega
          · rw [if_neg h1] at hgt ⊢
            by_cases h2 : isRedirectTarget v = true
            · rw [if_pos h2] at hgt
              by_cases h3 : redirectReplaces v = true
              · rw [if_pos h3] at hgt
                dsimp only at hgt
                rw [abortRun_reads] at hgt
                dsimp only at hgt
                omega
              · rw [if_neg h3] at hgt
                dsimp only at hgt
                rw [abortRun_reads] at hgt
                dsimp only at hgt
                omega
            · rw [if_neg h2] at hgt ⊢
              obtain ⟨tr, heq2, hq⟩ := ih
                { st with reads := st.reads + 1, trace := st.trace ++ [Ev.guardCall] }
                (by dsimp only; omega) hgt
              refine ⟨Ev.guardCall :: tr, ?_, ?_⟩
              · rw [heq2]
                dsimp only
                simp
              · rw [List.all_cons, hq]
                rfl

theorem countOnAbort_append (l1 l2 : List Ev) :
    countOnAbort (l1 ++ l2) = countOnAbort l1 + countOnAbort l2 :=
  List.countP_append _ _ _

theorem countOnComplete_append (l1 l2 : List Ev) :
    countOnComplete (l1 ++ l2) = countOnComplete l1 + countOnComplete l2 :=
  List.countP_append _ _ _

theorem countErrorCb_append (l1 l2 : List Ev) :
    countErrorCb (l1 ++ l2) = countErrorCb l1 + countErrorCb l2 :=
  List.countP_append _ _ _

theorem countNav_append (l1 l2 : List Ev) :
    countNav (l1 ++ l2) = countNav l1 + countNav l2 :=
  List.countP_append _ _ _

theorem countGuardCalls_append (l1 l2 : List Ev) :
    countGuardCalls (l1 ++ l2) = countGuardCalls l1 + countGuardCalls l2 :=
  List.countP_append _ _ _

theorem abortArgs_append (l1 l2 : List Ev) :
    abortArgs (l1 ++ l2) = abortArgs l1 ++ abortArgs l2 :=
  List.filterMap_append _ _ _

theorem quiet_counts (tr : List Ev) (h : tr.all quietEv = true) :
    countOnAbort tr = 0 ∧ countOnComplete tr = 0 ∧ countErrorCb tr = 0 ∧
    countNav tr = 0 ∧ abortArgs tr = [] := by
  induction tr with
  | nil => exact ⟨rfl, rfl, rfl, rfl, rfl⟩
  | cons e tr ih =>
    rw [List.all_cons, Bool.and_eq_true] at h
    obtain ⟨he, htr⟩ := h
    obtain ⟨c1, c2, c3, c4, c5⟩ := ih htr
    cases e with
    | guardCall =>
      refine ⟨?_, ?_, ?_, ?_, ?_⟩
      · simpa [countOnAbort, List.countP_cons] using c1
      · simpa [countOnComplete, List.countP_cons] using c2
      · simpa [countErrorCb, List.countP_cons] using c3
      · simpa [countNav, List.countP_cons] using c4
      · simpa [abortArgs, List.filterMap_cons] using c5
    | ensureURL b => simp [quietEv] at he
    | errorCb a => simp [quietEv] at he
    | warnUncaught => simp [quietEv] at he
    | onAbort a => simp [quietEv] at he
    | pushNav a => simp [quietEv] at he
    | replaceNav a => simp [quietEv] at he
    | clearPending => simp [quietEv] at he
    | onComplete => simp [quietEv] at he

theorem finalStep_reads (ecbs : Nat) (obs : Nat → Bool) (st : RunSt) :
    (finalStep ecbs obs st).reads = st.reads + 1 := by
  rw [finalStep]
  by_cases ho : obs st.reads = true
  · rw [if_pos ho]
  · rw [if_neg ho, abortRun_reads]

theorem confirmTransition_combined (cur rt : Route)
    (qa qb : List (Option GuardBehavior)) (ecbs : Nat) (obs : Nat → Bool)
    (hsc : shortCircuits rt cur = false) :
    confirmTransition cur rt qa qb ecbs obs =
      (match runGuardQueue ecbs obs (qa ++ qb) { reads := 0, trace := [] } with
       | (st, false) => st
       | (st, true) => finalStep ecbs obs st) := by
  rw [confirmTransition, if_neg (by rw [hsc]; exact Bool.false_ne_true)]
  rw [runGuardQueue_append]
  cases hA : runGuardQueue ecbs obs qa { reads := 0, trace := [] } with
  | mk stA okA =>
    cases okA with
    | false => rfl
    | true => rfl

/-- C1: a transition `rt` whose pending slot is overwritten by a newer
transition before it finishes aborts silently and never commits.  `s` is the
suspension point (pending-slot read) at which the overwrite is first
observed; the hypothesis states that the live run (never superseded) would
still have been in flight at that read.  The superseded run invokes the
per-call abort callback exactly once, with no error value, runs no error
callback, issues no navigation, and never invokes `onComplete`.  (The
pending slot itself is the single `pending` field of the controller, so at
most one transition occupies it at any time by construction.) -/
theorem confirm_superseded_silent (cur rt : Route)
    (qa qb : List (Option GuardBehavior)) (ecbs s : Nat)
    (h : s < (confirmTransition cur rt qa qb ecbs (fun _ => true)).reads) :
    abortArgs (confirmTransition cur rt qa qb ecbs
        (fun k => decide (k < s))).trace = [JSValue.undef] ∧
    countOnComplete (confirmTransition cur rt qa qb ecbs
        (fun k => decide (k < s))).trace = 0 ∧
    countErrorCb (confirmTransition cur rt qa qb ecbs
        (fun k => decide (k < s))).trace = 0 ∧
    countNav (confirmTransition cur rt qa qb ecbs
        (fun k => decide (k < s))).trace = 0 ∧
    currentAfterRun cur rt (confirmTransition cur rt qa qb ecbs
        (fun k => decide (k < s))).trace = cur := by
  by_cases hsc : shortCircuits rt cur = true
  · exfalso
    rw [confirmTransition, if_pos hsc, abortRun_reads] at h
    dsimp only at h
    omega
  · have hsc' : shortCircuits rt cur = false := Bool.of_not_eq_true hsc
    have hobs1 : ∀ k, (fun _ : Nat => true) k = true := fun _ => rfl
    have hobs2 : ∀ k, (fun k => decide (k < s)) k = true ↔ k < s := by
      intro k
      simp
    rw [confirmTransition_combined cur rt qa qb ecbs (fun _ => true) hsc'] at h
    rw [confirmTransition_combined cur rt qa qb ecbs (fun k => decide (k < s)) hsc']
    cases hA : runGuardQueue ecbs (fun _ => true) (qa ++ qb) { reads := 0, trace := [] } with
    | mk stA okA =>
      rw [hA] at h
      cases okA with
      | false =>
        dsimp only at h
        obtain ⟨tr, hrun, hq⟩ := runGuardQueue_superseded ecbs s _ _ hobs1 hobs2
          (qa ++ qb) { reads := 0, trace := [] } (by dsimp only; omega)
          (by rw [hA]; exact h)
        rw [hrun]
        dsimp only
        obtain ⟨q1, q2, q3, q4, q5⟩ := quiet_counts tr hq
        refine ⟨?_, ?_, ?_, ?_, ?_⟩
        · rw [abortArgs_append, List.nil_append, q5]
          rfl
        · rw [countOnComplete_append, List.nil_append, q2]
          rfl
        · rw [countErrorCb_append, List.nil_append, q3]
          rfl
        · rw [countNav_append, List.nil_append, q4]
          rfl
        · rw [currentAfterRun, if_neg]
          intro hmem
          rw [List.nil_append] at hmem
          rcases List.mem_append.mp hmem with hm | hm
          · have := List.all_eq_true.mp hq _ hm
            simp [quietEv] at this
          · rcases List.mem_singleton.mp hm with hn
            exact Ev.noConfusion hn
      | true =>
        dsimp only at h
        rw [finalStep_reads] at h
        by_cases hlt : s < stA.reads
        · obtain ⟨tr, hrun, hq⟩ := runGuardQueue_superseded ecbs s _ _ hobs1 hobs2
            (qa ++ qb) { reads := 0, trace := [] } (by dsimp only; omega)
            (by rw [hA]; exact hlt)
          rw [hrun]
          dsimp only
          obtain ⟨q1, q2, q3, q4, q5⟩ := quiet_counts tr hq
          refine ⟨?_, ?_, ?_, ?_, ?_⟩
          · rw [abortArgs_append, List.nil_append, q5]
            rfl
          · rw [countOnComplete_append, List.nil_append, q2]
            rfl
          · rw [countErrorCb_append, List.nil_append, q3]
            rfl
          · rw [countNav_append, List.nil_append, q4]
            rfl
          · rw [currentAfterRun, if_neg]
            intro hmem
            rw [List.nil_append] at hmem
            rcases List.mem_append.mp hmem with hm | hm
            · have := List.all_eq_true.mp hq _ hm
              simp [quietEv] at this
            · rcases List.mem_singleton.mp hm with hn
              exact Ev.noConfusion hn
        · have hseq : s = stA.reads := by omega
          have hagree : runGuardQueue ecbs (fun k => decide (k < s)) (qa ++ qb)
              { reads := 0, trace := [] } =
              runGuardQueue ecbs (fun _ => true) (qa ++ qb) { reads := 0, trace := [] } := by
            apply runGuardQueue_agree
            intro k hk1 hk2
            rw [hA] at hk2
            dsimp only at hk2
            have hks : k < s := by omega
            simp [hks]
          rw [hagree, hA]
          dsimp only
          obtain ⟨tr, htr, hq⟩ := runGuardQueue_trace_of_done ecbs (fun _ => true)
            (qa ++ qb) { reads := 0, trace := [] } (by rw [hA])
          rw [hA] at htr
          dsimp only at htr
          rw [finalStep, if_neg (show ¬ ((fun k => decide (k < s)) stA.reads = true) by
            simp
            omega)]
          rw [abortRun, if_neg (show ¬ isError JSValue.undef = true by decide)]
          dsimp only
          rw [htr, List.nil_append]
          obtain ⟨q1, q2, q3, q4, q5⟩ := quiet_counts tr hq
          refine ⟨?_, ?_, ?_, ?_, ?_⟩
          · rw [abortArgs_append, q5]
            rfl
          · rw [countOnComplete_append, q2]
            rfl
          · rw [countErrorCb_append, q3]
            rfl
          · rw [countNav_append, q4]
            rfl
          · rw [currentAfterRun, if_neg]
            intro hmem
            rcases List.mem_append.mp hmem with hm | hm
            · have := List.all_eq_true.mp hq _ hm
              simp [quietEv] at this
            · rcases List.mem_singleton.mp hm with hn
              exact Ev.noConfusion hn

/-- Witness for C1: a single-guard transition superseded at its second
pending-slot read (the final commit check). -/
theorem confirm_superseded_silent_witness :
    abortArgs (confirmTransition routeA routeB [some (GuardBehavior.call JSValue.undef)] []
        0 (fun k => decide (k < 1))).trace = [JSValue.undef] ∧
    countOnComplete (confirmTransition routeA routeB [some (GuardBehavior.call JSValue.undef)] []
        0 (fun k => decide (k < 1))).trace = 0 ∧
    countErrorCb (confirmTransition routeA routeB [some (GuardBehavior.call JSValue.undef)] []
        0 (fun k => decide (k < 1))).trace = 0 ∧
    countNav (confirmTransition routeA routeB [some (GuardBehavior.call JSValue.undef)] []
        0 (fun k => decide (k < 1))).trace = 0 ∧
    currentAfterRun routeA routeB (confirmTransition routeA routeB
        [some (GuardBehavior.call JSValue.undef)] []
        0 (fun k => decide (k < 1))).trace = routeA :=
  confirm_superseded_silent routeA routeB [some (GuardBehavior.call JSValue.undef)] []
    0 1 (by decide)

theorem runGuardQueue_proceeds (ecbs : Nat) (obs1 : Nat → Bool)
    (hobs1 : ∀ k, obs1 k = true) :
    ∀ (q : List (Option GuardBehavior)), (∀ g ∈ q, proceeds g = true) →
    ∀ st : RunSt, runGuardQueue ecbs obs1 q st =
      ({ reads := st.reads + countSome q,
         trace := st.trace ++ List.replicate (countSome q) Ev.guardCall }, true) := by
  intro q
  induction q with
  | nil =>
    intro _ st
    rw [runGuardQueue]
    simp [countSome]
  | cons g rest ih =>
    intro hq st
    have hrest : ∀ g ∈ rest, proceeds g = true := fun g hg => hq g (List.mem_cons_of_mem _ hg)
    cases g with
    | none =>
      rw [runGuardQueue, ih hrest st]
      simp [countSome, List.countP_cons, Option.isSome]
    | some gb =>
      have hpg : proceeds (some gb) = true := hq (some gb) (List.mem_cons_self _ _)
      cases gb with
      | throws e => simp [proceeds] at hpg
      | call v =>
        rw [proceeds, Bool.and_eq_true, Bool.not_eq_true', Bool.not_eq_true'] at hpg
        obtain ⟨h1, h2⟩ := hpg
        rw [runGuardQueue, if_pos (hobs1 st.reads)]
        dsimp only
        rw [if_neg (by rw [h1]; exact Bool.false_ne_true),
          if_neg (by rw [h2]; exact Bool.false_ne_true)]
        rw [ih hrest]
        dsimp only
        have hc : countSome (some (GuardBehavior.call v) :: rest) = countSome rest + 1 := by
          simp [countSome, List.countP_cons]
        rw [hc]
        apply congrArg (fun x => (x, true))
        have h3 : st.reads + 1 + countSome rest = st.reads + (countSome rest + 1) := by omega
        rw [h3, List.replicate_succ]
        simp

theorem redirect_not_error (v : JSValue) (h : isRedirectTarget v = true) :
    (v == JSValue.bool false || isError v) = false := by
  cases v with
  | str s => rfl
  | obj p n r => rfl
  | undef => simp [isRedirectTarget] at h
  | bool b => simp [isRedirectTarget] at h
  | errObj m => simp [isRedirectTarget] at h
  | fn => simp [isRedirectTarget] at h

theorem abortArgs_replicate_guardCall (k : Nat) :
    abortArgs (List.replicate k Ev.guardCall) = [] :=
  filterMap_replicate_none _ k _ rfl

theorem countErrorCb_replicate_guardCall (k : Nat) :
    countErrorCb (List.replicate k Ev.guardCall) = 0 :=
  countP_replicate_zero _ k _ rfl

theorem countOnComplete_replicate_guardCall (k : Nat) :
    countOnComplete (List.replicate k Ev.guardCall) = 0 :=
  countP_replicate_zero _ k _ rfl

theorem countNav_replicate_guardCall (k : Nat) :
    countNav (List.replicate k Ev.guardCall) = 0 :=
  countP_replicate_zero _ k _ rfl

theorem runGuardQueue_veto_head (ecbs : Nat) (obs1 : Nat → Bool)
    (hobs1 : ∀ k, obs1 k = true) (rest : List (Option GuardBehavior)) (st : RunSt) :
    runGuardQueue ecbs obs1 (some (GuardBehavior.call (JSValue.bool false)) :: rest) st =
      (abortRun ecbs (JSValue.bool false)
        { reads := st.reads + 1, trace := st.trace ++ [Ev.guardCall] ++ [Ev.ensureURL true] },
       false) := by
  rw [runGuardQueue, if_pos (hobs1 st.reads)]
  rfl

theorem runGuardQueue_redirect_head (ecbs : Nat) (obs1 : Nat → Bool)
    (hobs1 : ∀ k, obs1 k = true) (v : JSValue) (hred : isRedirectTarget v = true)
    (rest : List (Option GuardBehavior)) (st : RunSt) :
    runGuardQueue ecbs obs1 (some (GuardBehavior.call v) :: rest) st =
      (if redirectReplaces v = true then
        ({ reads := (abortRun ecbs JSValue.undef
              { reads := st.reads + 1, trace := st.trace ++ [Ev.guardCall] }).reads,
           trace := (abortRun ecbs JSValue.undef
              { reads := st.reads + 1, trace := st.trace ++ [Ev.guardCall] }).trace ++
             [Ev.replaceNav v] }, false)
      else
        ({ reads := (abortRun ecbs JSValue.undef
              { reads := st.reads + 1, trace := st.trace ++ [Ev.guardCall] }).reads,
           trace := (abortRun ecbs JSValue.undef
              { reads := st.reads + 1, trace := st.trace ++ [Ev.guardCall] }).trace ++
             [Ev.pushNav v] }, false)) := by
  rw [runGuardQueue, if_pos (hobs1 st.reads)]
  dsimp only
  rw [if_neg (by rw [redirect_not_error v hred]; exact Bool.false_ne_true), if_pos hred]

/-- C3 (amended): when a checkpoint calls its continuation with `false`
(every earlier step advancing, transition never superseded, no same-route
short-circuit), the run re-asserts the URL with the force flag
(`ensureURL(true)`) and then aborts: the per-call abort callback is invoked
exactly once, with `false`; the registered global error callbacks are NOT
invoked (`isError(false)` is false, so `abort(false)` skips them); no
commit occurs and `current` is unchanged. -/
theorem checkpoint_false_veto (cur rt : Route)
    (qa qb q1 rest : List (Option GuardBehavior)) (ecbs : Nat)
    (hsplit : qa ++ qb = q1 ++ some (GuardBehavior.call (JSValue.bool false)) :: rest)
    (hq1 : ∀ g ∈ q1, proceeds g = true)
    (hsc : shortCircuits rt cur = false) :
    (confirmTransition cur rt qa qb ecbs (fun _ => true)).trace =
      List.replicate (countSome q1) Ev.guardCall ++
        [Ev.guardCall, Ev.ensureURL true, Ev.onAbort (JSValue.bool false)] ∧
    abortArgs (confirmTransition cur rt qa qb ecbs (fun _ => true)).trace
      = [JSValue.bool false] ∧
    countErrorCb (confirmTransition cur rt qa qb ecbs (fun _ => true)).trace = 0 ∧
    countOnComplete (confirmTransition cur rt qa qb ecbs (fun _ => true)).trace = 0 ∧
    currentAfterRun cur rt (confirmTransition cur rt qa qb ecbs (fun _ => true)).trace
      = cur := by
  have hobs1 : ∀ k, (fun _ : Nat => true) k = true := fun _ => rfl
  have htr : confirmTransition cur rt qa qb ecbs (fun _ => true) =
      { reads := countSome q1 + 1,
        trace := List.replicate (countSome q1) Ev.guardCall ++
          [Ev.guardCall, Ev.ensureURL true, Ev.onAbort (JSValue.bool false)] } := by
    rw [confirmTransition_combined cur rt qa qb ecbs (fun _ => true) hsc, hsplit,
      runGuardQueue_append, runGuardQueue_proceeds ecbs (fun _ => true) hobs1 q1 hq1]
    dsimp only
    rw [runGuardQueue_veto_head ecbs (fun _ => true) hobs1 rest]
    dsimp only
    rw [abortRun,
      if_neg (show ¬ isError (JSValue.bool false) = true from fun hh => Bool.noConfusion hh)]
    dsimp only
    simp
  refine ⟨by rw [htr], ?_, ?_, ?_, ?_⟩
  · rw [htr]
    dsimp only
    rw [abortArgs_append, abortArgs_replicate_guardCall]
    rfl
  · rw [htr]
    dsimp only
    rw [countErrorCb_append, countErrorCb_replicate_guardCall]
    rfl
  · rw [htr]
    dsimp only
    rw [countOnComplete_append, countOnComplete_replicate_guardCall]
    rfl
  · rw [htr]
    dsimp only
    rw [currentAfterRun, if_neg]
    intro hmem
    rcases List.mem_append.mp hmem with hm | hm
    · have hg := List.eq_of_mem_replicate hm
      exact Ev.noConfusion hg
    · simp at hm

/-- C3 as stated is false at this input: one registered global error
callback, one checkpoint vetoing with `false` — the abort callback receives
`false` but the error callback is invoked zero times, not once. -/
theorem checkpoint_false_veto_counterexample :
    abortArgs (confirmTransition routeA routeB
        [some (GuardBehavior.call (JSValue.bool false))] [] 1 (fun _ => true)).trace
      = [JSValue.bool false] ∧
    countErrorCb (confirmTransition routeA routeB
        [some (GuardBehavior.call (JSValue.bool false))] [] 1 (fun _ => true)).trace = 0 ∧
    ¬ countErrorCb (confirmTransition routeA routeB
        [some (GuardBehavior.call (JSValue.bool false))] [] 1 (fun _ => true)).trace = 1 := by
  refine ⟨?_, ?_, ?_⟩ <;> decide

/-- Witness for the amended C3 at a concrete queue. -/
theorem checkpoint_false_veto_witness :
    (confirmTransition routeA routeB
        [none, some (GuardBehavior.call JSValue.undef)]
        [some (GuardBehavior.call (JSValue.bool false))] 1 (fun _ => true)).trace =
      List.replicate (countSome [none, some (GuardBehavior.call JSValue.undef)]) Ev.guardCall ++
        [Ev.guardCall, Ev.ensureURL true, Ev.onAbort (JSValue.bool false)] ∧
    abortArgs (confirmTransition routeA routeB
        [none, some (GuardBehavior.call JSValue.undef)]
        [some (GuardBehavior.call (JSValue.bool false))] 1 (fun _ => true)).trace
      = [JSValue.bool false] ∧
    countErrorCb (confirmTransition routeA routeB
        [none, some (GuardBehavior.call JSValue.undef)]
        [some (GuardBehavior.call (JSValue.bool false))] 1 (fun _ => true)).trace = 0 ∧
    countOnComplete (confirmTransition routeA routeB
        [none, some (GuardBehavior.call JSValue.undef)]
        [some (GuardBehavior.call (JSValue.bool false))] 1 (fun _ => true)).trace = 0 ∧
    currentAfterRun routeA routeB (confirmTransition routeA routeB
        [none, some (GuardBehavior.call JSValue.undef)]
        [some (GuardBehavior.call (JSValue.bool false))] 1 (fun _ => true)).trace
      = routeA :=
  checkpoint_false_veto routeA routeB
    [none, some (GuardBehavior.call JSValue.undef)]
    [some (GuardBehavior.call (JSValue.bool false))]
    [none, some (GuardBehavior.call JSValue.undef)] [] 1
    rfl (by decide) (by decide)

/-- C4: when a checkpoint calls its continuation with a redirect target (a
string, or an object bearing a `path` or `name` field), and every earlier
step advances, the transition aborts with no error value — the per-call
abort callback is invoked exactly once with no argument and no global error
callback runs — then exactly one new navigation is issued to that target,
via `replace` when the object carries a truthy `replace` flag and via
`push` otherwise; the original target is never committed as `current`. -/
theorem checkpoint_redirect (cur rt : Route)
    (qa qb q1 rest : List (Option GuardBehavior)) (v : JSValue) (ecbs : Nat)
    (hsplit : qa ++ qb = q1 ++ some (GuardBehavior.call v) :: rest)
    (hq1 : ∀ g ∈ q1, proceeds g = true)
    (hred : isRedirectTarget v = true)
    (hsc : shortCircuits rt cur = false) :
    (confirmTransition cur rt qa qb ecbs (fun _ => true)).trace =
      List.replicate (countSome q1) Ev.guardCall ++
        [Ev.guardCall, Ev.onAbort JSValue.undef,
         if redirectReplaces v = true then Ev.replaceNav v else Ev.pushNav v] ∧
    abortArgs (confirmTransition cur rt qa qb ecbs (fun _ => true)).trace
      = [JSValue.undef] ∧
    countErrorCb (confirmTransition cur rt qa qb ecbs (fun _ => true)).trace = 0 ∧
    countNav (confirmTransition cur rt qa qb ecbs (fun _ => true)).trace = 1 ∧
    countOnComplete (confirmTransition cur rt qa qb ecbs (fun _ => true)).trace = 0 ∧
    currentAfterRun cur rt (confirmTransition cur rt qa qb ecbs (fun _ => true)).trace
      = cur := by
  have hobs1 : ∀ k, (fun _ : Nat => true) k = true := fun _ => rfl
  have htr : confirmTransition cur rt qa qb ecbs (fun _ => true) =
      { reads := countSome q1 + 1,
        trace := List.replicate (countSome q1) Ev.guardCall ++
          [Ev.guardCall, Ev.onAbort JSValue.undef,
           if redirectReplaces v = true then Ev.replaceNav v else Ev.pushNav v] } := by
    rw [confirmTransition_combined cur rt qa qb ecbs (fun _ => true) hsc, hsplit,
      runGuardQueue_append, runGuardQueue_proceeds ecbs (fun _ => true) hobs1 q1 hq1]
    dsimp only
    rw [runGuardQueue_redirect_head ecbs (fun _ => true) hobs1 v hred rest]
    rw [abortRun,
      if_neg (show ¬ isError JSValue.undef = true from fun hh => Bool.noConfusion hh)]
    dsimp only
    by_cases h3 : redirectReplaces v = true
    · rw [if_pos h3, if_pos h3]
      dsimp only
      simp
    · rw [if_neg h3, if_neg h3]
      dsimp only
      simp
  refine ⟨by rw [htr], ?_, ?_, ?_, ?_, ?_⟩
  · rw [htr]
    dsimp only
    rw [abortArgs_append, abortArgs_replicate_guardCall]
    by_cases h3 : redirectReplaces v = true
    · rw [if_pos h3]
      rfl
    · rw [if_neg h3]
      rfl
  · rw [htr]
    dsimp only
    rw [countErrorCb_append, countErrorCb_replicate_guardCall]
    by_cases h3 : redirectReplaces v = true
    · rw [if_pos h3]
      rfl
    · rw [if_neg h3]
      rfl
  · rw [htr]
    dsimp only
    rw [countNav_append, countNav_replicate_guardCall]
    by_cases h3 : redirectReplaces v = true
    · rw [if_pos h3]
      rfl
    · rw [if_neg h3]
      rfl
  · rw [htr]
    dsimp only
    rw [countOnComplete_append, countOnComplete_replicate_guardCall]
    by_cases h3 : redirectReplaces v = true
    · rw [if_pos h3]
      rfl
    · rw [if_neg h3]
      rfl
  · rw [htr]
    dsimp only
    rw [currentAfterRun, if_neg]
    intro hmem
    rcases List.mem_append.mp hmem with hm | hm
    · have hg := List.eq_of_mem_replicate hm
      exact Ev.noConfusion hg
    · by_cases h3 : redirectReplaces v = true
      · rw [if_pos h3] at hm
        simp at hm
      · rw [if_neg h3] at hm
        simp at hm

/-- Witness for C4: a single checkpoint redirecting to `{path: '/c'}`
(no replace flag → push). -/
theorem checkpoint_redirect_witness :
    (confirmTransition routeA routeB
        [some (GuardBehavior.call (JSValue.obj (some "/c") none false))] []
        1 (fun _ => true)).trace =
      List.replicate (countSome ([] : List (Option GuardBehavior))) Ev.guardCall ++
        [Ev.guardCall, Ev.onAbort JSValue.undef,
         if redirectReplaces (JSValue.obj (some "/c") none false) = true then
           Ev.replaceNav (JSValue.obj (some "/c") none false)
         else Ev.pushNav (JSValue.obj (some "/c") none false)] ∧
    abortArgs (confirmTransition routeA routeB
        [some (GuardBehavior.call (JSValue.obj (some "/c") none false))] []
        1 (fun _ => true)).trace = [JSValue.undef] ∧
    countErrorCb (confirmTransition routeA routeB
        [some (GuardBehavior.call (JSValue.obj (some "/c") none false))] []
        1 (fun _ => true)).trace = 0 ∧
    countNav (confirmTransition routeA routeB
        [some (GuardBehavior.call (JSValue.obj (some "/c") none false))] []
        1 (fun _ => true)).trace = 1 ∧
    countOnComplete (confirmTransition routeA routeB
        [some (GuardBehavior.call (JSValue.obj (some "/c") none false))] []
        1 (fun _ => true)).trace = 0 ∧
    currentAfterRun routeA routeB (confirmTransition routeA routeB
        [some (GuardBehavior.call (JSValue.obj (some "/c") none false))] []
        1 (fun _ => true)).trace = routeA :=
  checkpoint_redirect routeA routeB
    [some (GuardBehavior.call (JSValue.obj (some "/c") none false))] [] [] []
    (JSValue.obj (some "/c") none false) 1
    rfl (by simp) (by decide) (by decide)

/-- The ready bookkeeping of the controller (src/unnamed/part_000 lines
21-23, 43-48): the one-time flag and the two callback queues.  Callbacks
are identified by `Nat` ids. -/
structure ReadySt where
  ready : Bool
  readyCbs : List Nat
  readyErrorCbs : List Nat
  deriving DecidableEq, Repr

/-- `History.onReady` (src/unnamed/part_000 lines 57-68): when the
controller is already ready, invoke `cb` immediately; otherwise queue `cb`
(and `errorCb` when supplied).  Returns the new state and the list of
callbacks invoked now. -/
def onReady (st : ReadySt) (cb : Nat) (errorCb : Option Nat) : ReadySt × List Nat :=
  if st.ready then (st, [cb])
  else
    ({ st with readyCbs := st.readyCbs ++ [cb], readyErrorCbs := st.readyErrorCbs ++ errorCb.toList }, [])

/-- The ready part of `transitionTo`'s completion callback
(src/unnamed/part_000 lines 84-88): `if (!this.ready) { this.ready = true;
this.readyCbs.forEach(cb => cb(route)) }`.  Returns the new state and the
callbacks fired. -/
def transitionToCompleteReady (st : ReadySt) : ReadySt × List Nat :=
  if st.ready then (st, [])
  else ({ st with ready := true }, st.readyCbs)

/-- The ready part of `transitionTo`'s abort callback (src/unnamed/part_000
lines 89-96): `if (err && !this.ready) { this.ready = true;
this.readyErrorCbs.forEach(cb => cb(err)) }`.  `err` is the value passed to
the abort callback; JavaScript truthiness gates the branch. -/
def transitionToAbortReady (st : ReadySt) (err : JSValue) : ReadySt × List Nat :=
  if jsTruthy err && !st.ready then ({ st with ready := true }, st.readyErrorCbs)
  else (st, [])

/-- C7 as stated is false: when the first transition ever to resolve fails
with an error, the ready flag is set and the ready-callback queue is never
drained — the first transition ever to complete SUCCESSFULLY (the next one)
fires none of the queued ready callbacks. -/
theorem ready_first_success_counterexample :
    (transitionToAbortReady { ready := false, readyCbs := [7], readyErrorCbs := [] }
        (JSValue.errObj "load failed")).2 = [] ∧
    (transitionToCompleteReady
        (transitionToAbortReady { ready := false, readyCbs := [7], readyErrorCbs := [] }
          (JSValue.errObj "load failed")).1).2 = [] ∧
    (transitionToCompleteReady
        (transitionToAbortReady { ready := false, readyCbs := [7], readyErrorCbs := [] }
          (JSValue.errObj "load failed")).1).1.readyCbs = [7] ∧
    (transitionToCompleteReady
        (transitionToAbortReady { ready := false, readyCbs := [7], readyErrorCbs := [] }
          (JSValue.errObj "load failed")).1).1.ready = true := by
  refine ⟨?_, ?_, ?_, ?_⟩ <;> decide

/-- C7 amended: the ready queues are drained at most once, on the first
transition ever to resolve: when that first resolution is a successful
completion, every queued ready callback fires and the ready flag is set;
when it is a failure, the ready-error queue is drained only if a truthy
error value was supplied (which also sets the flag, so the ready queue is
then never drained).  Once the flag is set it stays set: later completions
and failures fire nothing from the queues, and every `onReady` registration
made while the flag is set invokes its callback immediately instead of
queuing it. -/
theorem ready_queue_semantics (st : ReadySt) (cb : Nat) (errorCb : Option Nat)
    (err : JSValue) (hnr : st.ready = false) :
    transitionToCompleteReady st = ({ st with ready := true }, st.readyCbs) ∧
    transitionToAbortReady st err =
      (if jsTruthy err = true then ({ st with ready := true }, st.readyErrorCbs)
       else (st, [])) ∧
    onReady st cb errorCb =
      ({ st with readyCbs := st.readyCbs ++ [cb], readyErrorCbs := st.readyErrorCbs ++ errorCb.toList }, []) ∧
    transitionToCompleteReady (transitionToCompleteReady st).1 =
      ((transitionToCompleteReady st).1, []) ∧
    transitionToAbortReady (transitionToCompleteReady st).1 err =
      ((transitionToCompleteReady st).1, []) ∧
    onReady (transitionToCompleteReady st).1 cb errorCb =
      ((transitionToCompleteReady st).1, [cb]) := by
  have hc : transitionToCompleteReady st = ({ st with ready := true }, st.readyCbs) := by
    rw [transitionToCompleteReady, if_neg (by rw [hnr]; exact Bool.false_ne_true)]
  refine ⟨hc, ?_, ?_, ?_, ?_, ?_⟩
  · rw [transitionToAbortReady]
    by_cases he : jsTruthy err = true
    · rw [if_pos he, if_pos (by rw [he, hnr]; rfl)]
    · rw [if_neg he,
        if_neg (by rw [Bool.of_not_eq_true he]; exact Bool.false_ne_true)]
  · rw [onReady, if_neg (by rw [hnr]; exact Bool.false_ne_true)]
  · rw [hc]
    rw [transitionToCompleteReady]
    rw [if_pos rfl]
  · rw [hc]
    rw [transitionToAbortReady]
    rw [if_neg (by simp)]
  · rw [hc]
    rw [onReady, if_pos rfl]

/-- Witness for the amended C7 at a concrete not-ready state. -/
theorem ready_queue_semantics_witness :
    transitionToCompleteReady { ready := false, readyCbs := [1, 2], readyErrorCbs := [3] } =
      ({ ready := true, readyCbs := [1, 2], readyErrorCbs := [3] }, [1, 2]) ∧
    transitionToAbortReady { ready := false, readyCbs := [1, 2], readyErrorCbs := [3] }
        (JSValue.errObj "e") =
      (if jsTruthy (JSValue.errObj "e") = true then
        ({ ready := true, readyCbs := [1, 2], readyErrorCbs := [3] }, [3])
       else ({ ready := false, readyCbs := [1, 2], readyErrorCbs := [3] }, [])) ∧
    onReady { ready := false, readyCbs := [1, 2], readyErrorCbs := [3] } 4 (some 5) =
      ({ ready := false, readyCbs := [1, 2, 4], readyErrorCbs := [3, 5] }, []) ∧
    transitionToCompleteReady
        (transitionToCompleteReady
          { ready := false, readyCbs := [1, 2], readyErrorCbs := [3] }).1 =
      ((transitionToCompleteReady
          { ready := false, readyCbs := [1, 2], readyErrorCbs := [3] }).1, []) ∧
    transitionToAbortReady
        (transitionToCompleteReady
          { ready := false, readyCbs := [1, 2], readyErrorCbs := [3] }).1
        (JSValue.errObj "e") =
      ((transitionToCompleteReady
          { ready := false, readyCbs := [1, 2], readyErrorCbs := [3] }).1, []) ∧
    onReady (transitionToCompleteReady
          { ready := false, readyCbs := [1, 2], readyErrorCbs := [3] }).1 4 (some 5) =
      ((transitionToCompleteReady
          { ready := false, readyCbs := [1, 2], readyErrorCbs := [3] }).1, [4]) := by
  exact ready_queue_semantics
    { ready := false, readyCbs := [1, 2], readyErrorCbs := [3] } 4 (some 5)
    (JSValue.errObj "e") rfl

theorem abortRun_countOnComplete (ecbs : Nat) (err : JSValue) (st : RunSt) :
    countOnComplete (abortRun ecbs err st).trace = countOnComplete st.trace := by
  obtain ⟨pre, htr, hp⟩ := abortRun_trace ecbs err st
  rw [htr, countOnComplete_append, countOnComplete_append, hp.2.1]
  rfl

theorem runGuardQueue_countOnComplete (ecbs : Nat) (obs : Nat → Bool)
    (q : List (Option GuardBehavior)) :
    ∀ st : RunSt, countOnComplete (((runGuardQueue ecbs obs q st).1).trace) =
      countOnComplete st.trace := by
  induction q with
  | nil =>
    intro st
    rfl
  | cons g rest ih =>
    intro st
    cases g with
    | none =>
      rw [runGuardQueue]
      exact ih st
    | some gb =>
      rw [runGuardQueue]
      by_cases ho : obs st.reads = true
      · rw [if_pos ho]
        cases gb with
        | throws e =>
          dsimp only
          rw [abortRun_countOnComplete]
          dsimp only
          rw [countOnComplete_append]
          rfl
        | call v =>
          dsimp only
          by_cases h1 : (v == JSValue.bool false || isError v) = true
          · rw [if_pos h1]
            dsimp only
            rw [abortRun_countOnComplete]
            dsimp only
            rw [countOnComplete_append, countOnComplete_append]
            rfl
          · rw [if_neg h1]
            by_cases h2 : isRedirectTarget v = true
            · rw [if_pos h2]
              by_cases h3 : redirectReplaces v = true
              · rw [if_pos h3]
                dsimp only
                rw [countOnComplete_append, abortRun_countOnComplete]
                dsimp only
                rw [countOnComplete_append]
                rfl
              · rw [if_neg h3]
                dsimp only
                rw [countOnComplete_append, abortRun_countOnComplete]
                dsimp only
                rw [countOnComplete_append]
                rfl
            · rw [if_neg h2]
              rw [ih]
              dsimp only
              rw [countOnComplete_append]
              rfl
      · rw [if_neg ho]
        dsimp only
        rw [abortRun_countOnComplete]

/-- An observable effect of `updateRoute`: the registered update listener
invoked with the new route's id, or one global after-hook invoked with
(hook id, new route id, previous route id). -/
inductive UpdEv where
  | listener : Nat → UpdEv
  | afterHook : Nat → Nat → Nat → UpdEv
  deriving DecidableEq, Repr

/-- `History.updateRoute` (src/unnamed/part_000 lines 230-238): snapshot the
previous current, set `current = route`, invoke the registered listener
(`this.cb && this.cb(route)`), then run every registered after-hook with
`(route, prev)` (`hook && hook(route, prev)`).  `cb` is the optional
listener id; `afterHooks` the registration-ordered hook list, absent
entries skipped. -/
def updateRoute (current : Route) (cb : Option Nat) (afterHooks : List (Option Nat))
    (route : Route) : Route × List UpdEv :=
  let prev := current
  (route,
    (match cb with
      | some _ => [UpdEv.listener route.id]
      | none => []) ++
      afterHooks.filterMap (fun h => h.map (fun hid => UpdEv.afterHook hid route.id prev.id)))

/-- C8: `updateRoute` sets `current` to the new route, invokes the
registered update listener with the new route, then invokes every
registered after-hook in registration order with (new route, snapshotted
previous route) and nothing else (no continuation exists in `UpdEv`); and
the controller's current Location changes only on the commit path: any
`confirmTransition` run that invoked the abort callback never invoked
`onComplete`, and a run without `onComplete` leaves `current` untouched. -/
theorem updateRoute_commit_only (cur : Route) (cb : Option Nat)
    (afterHooks : List (Option Nat)) (rt cur2 rt2 : Route)
    (qa qb : List (Option GuardBehavior)) (ecbs : Nat) (obs : Nat → Bool) :
    (updateRoute cur cb afterHooks rt).1 = rt ∧
    (updateRoute cur cb afterHooks rt).2 =
      (if cb.isSome then [UpdEv.listener rt.id] else []) ++
        (afterHooks.filterMap id).map (fun hid => UpdEv.afterHook hid rt.id cur.id) ∧
    (1 ≤ countOnAbort (confirmTransition cur2 rt2 qa qb ecbs obs).trace →
      countOnComplete (confirmTransition cur2 rt2 qa qb ecbs obs).trace = 0) ∧
    (countOnComplete (confirmTransition cur2 rt2 qa qb ecbs obs).trace = 0 →
      currentAfterRun cur2 rt2 (confirmTransition cur2 rt2 qa qb ecbs obs).trace = cur2) := by
  refine ⟨rfl, ?_, ?_, ?_⟩
  · cases cb with
    | none => simp [updateRoute, List.map_filterMap]
    | some c => simp [updateRoute, List.map_filterMap]
  · by_cases hsc : shortCircuits rt2 cur2 = true
    · intro _
      rw [confirmTransition, if_pos hsc]
      rfl
    · have hsc' : shortCircuits rt2 cur2 = false := Bool.of_not_eq_true hsc
      rw [confirmTransition_combined cur2 rt2 qa qb ecbs obs hsc']
      cases hQ : runGuardQueue ecbs obs (qa ++ qb) { reads := 0, trace := [] } with
      | mk stQ okQ =>
        cases okQ with
        | false =>
          intro _
          dsimp only
          have hc := runGuardQueue_countOnComplete ecbs obs (qa ++ qb)
            { reads := 0, trace := [] }
          rw [hQ] at hc
          dsimp only at hc
          exact hc.trans rfl
        | true =>
          dsimp only
          rw [finalStep]
          by_cases ho : obs stQ.reads = true
          · rw [if_pos ho]
            dsimp only
            intro habort
            exfalso
            obtain ⟨tr, htr, hq⟩ := runGuardQueue_trace_of_done ecbs obs (qa ++ qb)
              { reads := 0, trace := [] } (by rw [hQ])
            rw [hQ] at htr
            dsimp only at htr
            obtain ⟨a1, _, _, _, _⟩ := quiet_counts tr hq
            rw [countOnAbort_append, htr, List.nil_append, a1] at habort
            exact absurd habort (by decide)
          · rw [if_neg ho]
            intro _
            rw [abortRun_countOnComplete]
            dsimp only
            have hc := runGuardQueue_countOnComplete ecbs obs (qa ++ qb)
              { reads := 0, trace := [] }
            rw [hQ] at hc
            dsimp only at hc
            exact hc.trans rfl
  · intro h0
    rw [currentAfterRun, if_neg]
    intro hmem
    have hall := List.countP_eq_zero.mp h0
    exact hall _ hmem rfl

/-- Witness for C8 at concrete inputs. -/
theorem updateRoute_commit_only_witness :
    (updateRoute routeB (some 9) [some 4, none, some 6] routeA).1 = routeA ∧
    (updateRoute routeB (some 9) [some 4, none, some 6] routeA).2 =
      (if (some 9 : Option Nat).isSome then [UpdEv.listener routeA.id] else []) ++
        (([some 4, none, some 6].filterMap id).map
          (fun hid => UpdEv.afterHook hid routeA.id routeB.id)) ∧
    (1 ≤ countOnAbort (confirmTransition routeA routeB
        [some (GuardBehavior.call (JSValue.bool false))] [] 0 (fun _ => true)).trace →
      countOnComplete (confirmTransition routeA routeB
        [some (GuardBehavior.call (JSValue.bool false))] [] 0 (fun _ => true)).trace = 0) ∧
    (countOnComplete (confirmTransition routeA routeB
        [some (GuardBehavior.call (JSValue.bool false))] [] 0 (fun _ => true)).trace = 0 →
      currentAfterRun routeA routeB (confirmTransition routeA routeB
        [some (GuardBehavior.call (JSValue.bool false))] [] 0 (fun _ => true)).trace
        = routeA) :=
  updateRoute_commit_only routeB (some 9) [some 4, none, some 6] routeA routeA routeB
    [some (GuardBehavior.call (JSValue.bool false))] [] 0 (fun _ => true)

/-- Outcome of the deferred enter-callback delivery: callback invoked with
an instance at a tick, polling stopped (callback silently dropped) at a
tick, or still polling when the step budget ran out. -/
inductive PollOutcome where
  | delivered : Nat → Nat → PollOutcome
  | dropped : Nat → PollOutcome
  | polling : PollOutcome
  deriving DecidableEq, Repr

/-- `poll` (src/unnamed/part_000 lines 361-374): if the slot instance
exists, invoke the callback with it; else if the validity check holds,
re-schedule after one 16 ms tick; else stop silently.  `instances t` is the
entry's slot-instance map entry at tick `t`; `fuel` bounds how many steps
we unfold. -/
def poll (instances : Nat → Option Nat) (isValid : Nat → Bool) :
    Nat → Nat → PollOutcome
  | 0, _ => PollOutcome.polling
  | fuel + 1, t =>
    match instances t with
    | some inst => PollOutcome.delivered inst t
    | none =>
      if isValid t then poll instances isValid fuel (t + 1)
      else PollOutcome.dropped t

/-- The validity check `confirmTransition` hands to the enter-guard binder
(src/unnamed/part_000 line 202): `() => this.current === route`, read
against the controller's current route id at each tick. -/
def isValidAt (currentAt : Nat → Nat) (routeId : Nat) : Nat → Bool :=
  fun t => currentAt t == routeId

/-- Follows the claim's words (for comparison with the source's check):
"the pending Location is no longer, by identity, the one this guard
belongs to" — i.e. polling would continue only while the pending slot still
holds this route. -/
def pendingStillOurs (pendingAt : Nat → Option Nat) (routeId : Nat) : Nat → Bool :=
  fun t => pendingAt t == some routeId

/-- C9 as stated is false: after a successful commit the pending slot is
cleared (`null`), so it never holds the guard's route — by the claim's
pending-based test the callback would always be dropped.  The source checks
`this.current === route` instead: here current stays the guard's route, the
instance appears at tick 2, and the callback IS invoked. -/
theorem poll_pending_check_counterexample :
    poll (fun t => if 2 ≤ t then some 9 else none)
      (isValidAt (fun _ => 7) 7) 10 0 = PollOutcome.delivered 9 2 ∧
    (∀ t, t < 10 → pendingStillOurs (fun _ => none) 7 t = false) := by
  constructor
  · rfl
  · decide

/-- C9 amended: delivery of a deferred enter-guard callback polls the
entry's slot-instance map once per tick; while the owning route is still
the controller's CURRENT route (the source's `isValid`), the callback is
invoked with the instance as soon as it appears; once the current route is
no longer, by identity, the one this guard belongs to (and the instance has
not appeared), polling stops and the callback is silently dropped, never
invoked. -/
theorem poll_delivery_and_drop (instances : Nat → Option Nat)
    (currentAt : Nat → Nat) (routeId inst fuel : Nat) :
    ∀ t0 t1 : Nat, t0 ≤ t1 → t1 - t0 < fuel →
    ((∀ t, t0 ≤ t → t < t1 → instances t = none) →
     (∀ t, t0 ≤ t → t < t1 → currentAt t = routeId) →
     instances t1 = some inst →
     poll instances (isValidAt currentAt routeId) fuel t0 =
       PollOutcome.delivered inst t1) ∧
    ((∀ t, t0 ≤ t → t ≤ t1 → instances t = none) →
     (∀ t, t0 ≤ t → t < t1 → currentAt t = routeId) →
     ¬ currentAt t1 = routeId →
     poll instances (isValidAt currentAt routeId) fuel t0 =
       PollOutcome.dropped t1) := by
  induction fuel with
  | zero =>
    intro t0 t1 hle hfuel
    omega
  | succ fuel ih =>
    intro t0 t1 hle hfuel
    rcases Nat.eq_or_lt_of_le hle with heq | hlt
    · subst heq
      constructor
      · intro _ _ hinst
        rw [poll, hinst]
      · intro hinst hvalid hcur
        rw [poll, hinst t0 (le_refl _) (le_refl _)]
        rw [if_neg (show ¬ isValidAt currentAt routeId t0 = true by
          simp [isValidAt]
          exact hcur)]
    · constructor
      · intro hinst hvalid hi1
        rw [poll, hinst t0 (le_refl _) hlt]
        rw [if_pos (show isValidAt currentAt routeId t0 = true by
          simp [isValidAt]
          exact hvalid t0 (le_refl _) hlt)]
        exact (ih (t0 + 1) t1 (by omega) (by omega)).1
          (fun t h1 h2 => hinst t (by omega) h2)
          (fun t h1 h2 => hvalid t (by omega) h2) hi1
      · intro hinst hvalid hcur
        rw [poll, hinst t0 (le_refl _) (le_of_lt hlt)]
        rw [if_pos (show isValidAt currentAt routeId t0 = true by
          simp [isValidAt]
          exact hvalid t0 (le_refl _) hlt)]
        exact (ih (t0 + 1) t1 (by omega) (by omega)).2
          (fun t h1 h2 => hinst t (by omega) h2)
          (fun t h1 h2 => hvalid t (by omega) h2) hcur

/-- Witness for the amended C9: one delivery run and one drop run. -/
theorem poll_delivery_and_drop_witness :
    poll (fun t => if 2 ≤ t then some 9 else none)
      (isValidAt (fun _ => 7) 7) 5 0 = PollOutcome.delivered 9 2 ∧
    poll (fun _ => none)
      (isValidAt (fun t => if t < 2 then 7 else 8) 7) 5 0 = PollOutcome.dropped 2 := by
  constructor
  · exact (poll_delivery_and_drop (fun t => if 2 ≤ t then some 9 else none)
      (fun _ => 7) 7 9 5 0 2 (by decide) (by decide)).1
      (by intro t h1 h2; interval_cases t <;> rfl)
      (by intro t h1 h2; rfl)
      (by rfl)
  · exact (poll_delivery_and_drop (fun _ => none)
      (fun t => if t < 2 then 7 else 8) 7 9 5 0 2 (by decide) (by decide)).2
      (by intro t h1 h2; rfl)
      (by intro t h1 h2; interval_cases t <;> rfl)
      (by decide)
